import Mathlib

/-!
Verification of the LSB steganography codec in `solus.py` (GoodiesHQ/solus).

The pixel grid is modelled as a list of pixels, each pixel a list of 8-bit
channel values (row-major/column-major traversal order of the source's
`iter_pixels` generator is exactly list order).  Machine bytes are `Nat`
values (< 256 in every reachable state); Python's arbitrary-precision
integers are `Nat`; Python's floor division on possibly-negative values is
`Int` division (Lean's `Int` `/` is Euclidean division, which agrees with
Python `//` for positive divisors).  Fallible code returns `Except Err`.
-/

namespace Solus

/-- Number of bits per channel (`CHAN_SIZE` in the source). -/
def CHAN_SIZE : Nat := 8

/-- Number of pixels used for the prologue (`PROLOG_SIZE`). -/
def PROLOG_SIZE : Nat := 2

/-- Number of bytes that store the length of data (`LEN_SIZE`). -/
def LEN_SIZE : Nat := 4

/-- Number of channels per pixel (`CHAN_CNT`). -/
def CHAN_CNT : Nat := 3

/-- Prologue flag value meaning an XOR key is expected (`LSBCodec.XOR_Y`). -/
def XOR_Y : Nat := 0b111000

/-- Prologue flag value meaning no XOR key is expected (`LSBCodec.XOR_N`). -/
def XOR_N : Nat := 0b000000

/-- Exceptions raised by the codec.  `invalidLSB` = `InvalidLSB`,
`tooMuchData` = `TooMuchData`, `missingXOR` = `MissingXOR`,
`valueError` = Python `ValueError` (raised by `decode` for a bad header and by
`int(...)` conversions), `typeError` = Python `TypeError`,
`stopIteration` = `StopIteration` escaping from the exhausted pixel iterator,
`binasciiError` = `binascii.Error` from `unhexlify` on an odd-length string. -/
inductive Err where
  | invalidLSB
  | tooMuchData
  | missingXOR
  | valueError
  | typeError
  | stopIteration
  | binasciiError
deriving DecidableEq, Repr

/-- Source `LSBCodec.genmask`: a bitmask shifted `size` bits. -/
def genmask (size : Nat) : Nat := 1 <<< size

/-- Source `LSBCodec.gen1mask`: a bitmask of `size` consecutive ones,
built by or-ing `genmask i` for `i < size`. -/
def gen1mask : Nat → Nat
  | 0 => 0
  | n + 1 => gen1mask n ||| genmask n

/-- Source `LSBCodec.gen0mask`: a mask of `CHAN_SIZE` bits with `size`
trailing zeros. -/
def gen0mask (size : Nat) : Nat := gen1mask CHAN_SIZE ^^^ gen1mask size

/-- Big-endian value of a byte list: the value of
`int(binascii.hexlify(b), 16)` when `b` is non-empty (every byte of a real
Python `bytes` is below 256, so the hex round trip is exactly this fold). -/
def beval (bs : List Nat) : Nat := bs.foldl (fun acc b => acc * 256 + b) 0

/-- Source `LSBCodec.bytes_to_int`: `int(binascii.hexlify(b), 16)`.
On the empty byte string `hexlify` gives `b""` and `int(b"", 16)` raises
`ValueError`, modelled as `none`. -/
def bytes_to_int (bs : List Nat) : Option Nat :=
  if bs.isEmpty then none else some (beval bs)

/-- Worker for `hexLen` with structural fuel (the first argument), so that
the definition reduces inside the kernel; `fuel ≥ i` always suffices. -/
def hexLenGo : Nat → Nat → Nat
  | 0, _ => 1
  | fuel + 1, i => if i < 16 then 1 else hexLenGo fuel (i / 16) + 1

/-- Number of hex digits of `"{:x}".format(i)`: one digit for 0, otherwise
`⌊log16 i⌋ + 1`. -/
def hexLen (i : Nat) : Nat := hexLenGo i i

/-- Fixed-width big-endian byte list of `i` (low `size` bytes). -/
def toBytesBE : Nat → Nat → List Nat
  | _, 0 => []
  | i, n + 1 => toBytesBE (i / 256) n ++ [i % 256]

/-- Source `LSBCodec.int_to_bytes`:
`binascii.unhexlify("{:x}".format(i).zfill(size * 2))`.  The hex string has
`max (hexLen i) (2 * size)` digits after `zfill`; `unhexlify` raises
`binascii.Error` when that is odd (modelled as `none`), otherwise parses the
big-endian bytes. -/
def int_to_bytes (i size : Nat) : Option (List Nat) :=
  let digits := max (hexLen i) (size * 2)
  if digits % 2 = 1 then none else some (toBytesBE i (digits / 2))

/-- Source `LSBCodec.xor`: bytewise XOR of `data` with `itertools.cycle(key)`.
When `key` is empty, `cycle` is immediately exhausted and `zip` produces the
empty sequence, so the result is the empty byte string. -/
def xorCycle (data key : List Nat) : List Nat :=
  if key.isEmpty then []
  else (List.range data.length).map fun i => data.getD i 0 ^^^ key.getD (i % key.length) 0

/-- Total number of channels of the grid (`self.img.size` of the numpy
array: height times width times channels per pixel). -/
def gridSize (g : List (List Nat)) : Nat := (g.map List.length).sum

/-- Source `LSBCodec.available`:
`((self.img.size - PROLOG_SIZE) // (CHAN_SIZE // lsb_cnt)) - LEN_SIZE - 1`.
Computed in `Int` because the value can be negative for small grids; `Int`
division is Euclidean, matching Python floor division for the positive
divisor `CHAN_SIZE // lsb_cnt` (callers always pass `lsb` in `[1, 8]`). -/
def available (n lsb : Nat) : Int :=
  ((n : Int) - (PROLOG_SIZE : Int)) / ((CHAN_SIZE / lsb : Nat) : Int)
    - (LEN_SIZE : Int) - 1

/-- Modelled from the spec (for comparison with the source's `available`):
`maxPayloadBytes = ((gridChannelCount − prologueChannels) // (8 / bitWidth))
− lengthFieldBytes − 1` with `prologueChannels = 2 × 3 = 6` and
`lengthFieldBytes = 4`. -/
def availableSpec (n lsb : Nat) : Int :=
  ((n : Int) - 6) / ((8 / lsb : Nat) : Int) - 4 - 1

/-- One pixel step of `LSBEncoder._encode_data`: the inner
`for c in range(CHAN_CNT)` loop over the channels of one pixel.  Returns the
updated pixel, the remaining value and the remaining shift count.  When
`shifts` hits zero the loop breaks and the remaining channels are untouched. -/
def encPx (lsb m0 m1 : Nat) : List Nat → Nat → Nat → List Nat × Nat × Nat
  | [], v, s => ([], v, s)
  | a :: rest, v, s =>
    if s = 0 then (a :: rest, v, s)
    else
      let t := encPx lsb m0 m1 rest (v >>> lsb) (s - 1)
      (((a &&& m0) ||| (v &&& m1)) :: t.1, t.2)

/-- Source `LSBEncoder._encode_data`: writes `shifts` chunks of `lsb` bits of
`value` into successive pixels, consuming a fresh pixel from the iterator at
the top of each `while` iteration (so when `shifts` runs out mid-pixel the
rest of that pixel is skipped and the next call starts at the next pixel).
Returns `(written pixels, remaining pixels, ok)`; `ok = false` models
`StopIteration` escaping when the iterator is exhausted (the pixels already
written stay written). -/
def encData (lsb : Nat) : Nat → Nat → List (List Nat) → List (List Nat) × List (List Nat) × Bool
  | _, 0, ps => ([], ps, true)
  | _, _ + 1, [] => ([], [], false)
  | v, s + 1, px :: rest =>
    let t := encPx lsb (gen0mask lsb) (gen1mask lsb) px v (s + 1)
    let u := encData lsb t.2.1 t.2.2 rest
    (t.1 :: u.1, u.2)

/-- One pixel step of `LSBDecoder._decode_data`: the inner channel loop,
accumulating `value |= (px[c] & m1) << (pos * lsb_cnt)`. -/
def decPx (lsb m1 : Nat) : List Nat → Nat → Nat → Nat → Nat × Nat × Nat
  | [], value, pos, s => (value, pos, s)
  | a :: rest, value, pos, s =>
    if s = 0 then (value, pos, s)
    else decPx lsb m1 rest (value ||| ((a &&& m1) <<< (pos * lsb))) (pos + 1) (s - 1)

/-- Worker for `LSBDecoder._decode_data`, generalised over the running
`value` and `pos`; `none` models `StopIteration`. -/
def decGo (lsb m1 : Nat) : Nat → Nat → Nat → List (List Nat) → Option (Nat × List (List Nat))
  | value, _, 0, ps => some (value, ps)
  | _, _, _ + 1, [] => none
  | value, pos, s + 1, px :: rest =>
    let t := decPx lsb m1 px value pos (s + 1)
    decGo lsb m1 t.1 t.2.1 t.2.2 rest

/-- Source `LSBDecoder._decode_data` (`value` and `pos` start at zero);
returns the decoded value and the unconsumed pixels. -/
def decData (lsb s : Nat) (ps : List (List Nat)) : Option (Nat × List (List Nat)) :=
  decGo lsb (gen1mask lsb) 0 0 s ps

/-- Shift count of the payload phase, `size * CHAN_SIZE // lsb_cnt`: the same
expression appears in `LSBEncoder.encode` (line 221) and `LSBDecoder.decode`
(line 172). -/
def dataShifts (size lsb : Nat) : Nat := size * CHAN_SIZE / lsb

/-- Source `LSBEncoder.encode`, with the grid state threaded explicitly.
Returns the outcome together with the final state of the pixel grid (the
grid is mutated in place by `_encode_data`, also on the partial-write
`StopIteration` paths).  The leading Python type checks on `data` and
`xor_key` are discharged by the types of the model. -/
def encodeRun (grid : List (List Nat)) (data : List Nat) (lsb : Nat)
    (key : Option (List Nat)) : Except Err Unit × List (List Nat) :=
  if ¬ (1 ≤ lsb ∧ lsb ≤ CHAN_SIZE) then (.error .invalidLSB, grid)
  else if (data.length : Int) > available (gridSize grid) lsb then (.error .tooMuchData, grid)
  else
    match bytes_to_int (match key with | none => data | some k => xorCycle data k) with
    | none => (.error .valueError, grid)
    | some dint =>
      match encData 1 ((match key with | none => XOR_N | some _ => XOR_Y) ||| lsb)
          (PROLOG_SIZE * CHAN_CNT) grid with
      | (d1, _, false) => (.error .stopIteration, d1)
      | (d1, r1, true) =>
        match encData lsb data.length (LEN_SIZE * CHAN_SIZE / lsb) r1 with
        | (d2, _, false) => (.error .stopIteration, d1 ++ d2)
        | (d2, r2, true) =>
          match encData lsb dint (dataShifts data.length lsb) r2 with
          | (d3, _, false) => (.error .stopIteration, d1 ++ d2 ++ d3)
          | (d3, r3, true) => (.ok (), d1 ++ d2 ++ d3 ++ r3)

/-- Source `LSBEncoder.encode` viewed as a function from the input grid to
the encoded grid (the value of `self._img` after a successful call). -/
def encode (grid : List (List Nat)) (data : List Nat) (lsb : Nat)
    (key : Option (List Nat)) : Except Err (List (List Nat)) :=
  match encodeRun grid data lsb key with
  | (.ok _, g) => .ok g
  | (.error e, _) => .error e

/-- Source `LSBDecoder.decode`.  The `try`/`except` block turns both
`InvalidXOR` and `InvalidLSB` into `ValueError`; the `MissingXOR` check runs
after it; `int_to_bytes` can raise `binascii.Error`.  The unreachable branch
(obfuscation flag set, key `None`, after the `MissingXOR` check) is mapped to
`typeError` (Python would fail inside `bytearray(None)`). -/
def decode (grid : List (List Nat)) (key : Option (List Nat)) : Except Err (List Nat) :=
  match decData 1 (PROLOG_SIZE * CHAN_CNT) grid with
  | none => .error .stopIteration
  | some pr =>
    let xf := pr.1 &&& gen0mask CHAN_CNT
    let lsb0 := pr.1 &&& gen1mask CHAN_CNT
    if ¬ (xf = XOR_Y ∨ xf = XOR_N) then .error .valueError
    else if ¬ (1 ≤ lsb0 ∧ lsb0 ≤ CHAN_SIZE) then .error .valueError
    else if xf = XOR_Y ∧ key = none then .error .missingXOR
    else
      match decData lsb0 (LEN_SIZE * CHAN_SIZE / lsb0) pr.2 with
      | none => .error .stopIteration
      | some sz =>
        match decData lsb0 (dataShifts sz.1 lsb0) sz.2 with
        | none => .error .stopIteration
        | some dv =>
          match int_to_bytes dv.1 sz.1 with
          | none => .error .binasciiError
          | some bs =>
            if xf = XOR_Y then
              match key with
              | some k => .ok (xorCycle bs k)
              | none => .error .typeError
            else .ok bs

/-- ASCII whitespace, the characters `int()` strips from a bytes literal. -/
def isSpace (c : Nat) : Bool := decide (c = 32 ∨ (9 ≤ c ∧ c ≤ 13))

/-- ASCII decimal digit. -/
def isDigit (c : Nat) : Bool := decide (48 ≤ c ∧ c ≤ 57)

/-- Continuation of a digit sequence in a Python integer literal: further
digits, with single underscores allowed between digits (`1_000`), but no
leading, trailing or doubled underscore. -/
def digitsUCore : List Nat → Nat → Option Nat
  | [], acc => some acc
  | 95 :: c :: rest, acc =>
    if isDigit c then digitsUCore rest (acc * 10 + (c - 48)) else none
  | c :: rest, acc =>
    if isDigit c then digitsUCore rest (acc * 10 + (c - 48)) else none

/-- Value of a digit sequence (at least one digit, single underscores
allowed between digits), base 10. -/
def digitsVal : List Nat → Option Nat
  | [] => none
  | c :: rest => if isDigit c then digitsUCore rest (c - 48) else none

/-- Python `int(bytes)` on a decimal literal: surrounding ASCII whitespace
is stripped, then an optional sign is followed by decimal digits with
underscore grouping; anything else raises `ValueError` (`none`). -/
def parseIntBytes (bs : List Nat) : Option Int :=
  match ((bs.dropWhile isSpace).reverse.dropWhile isSpace).reverse with
  | 45 :: rest => (digitsVal rest).map fun n => -(n : Int)
  | 43 :: rest => (digitsVal rest).map fun n => (n : Int)
  | rest => (digitsVal rest).map fun n => (n : Int)

/-- Source `LSBEncoder.encode_string`: `self.encode(string.encode(), xor_key)`
binds `xor_key` to `encode`'s positional `lsb_cnt` parameter (the real
`xor_key` of the inner call is left at `None`, so the key is never applied
as an XOR key).  Inside `encode`, `assert lsb_check(lsb_cnt)` converts the
key with `int()` only to *validate* it and discards the result, so `lsb_cnt`
keeps its original value.  Every path then raises before any grid access:
`int(None)` raises `TypeError`; a key that is not a decimal literal raises
`ValueError` inside `int()`; a parsed value outside `(0, 8]` raises
`InvalidLSB` in `lsb_check`; and for a parsed value in range the very next
expression, `CHAN_SIZE // lsb_cnt` inside `available`, is `8 // bytes`,
which raises `TypeError`.  The grid state is threaded as in `encodeRun`. -/
def encodeStringRun (grid : List (List Nat)) (_s : List Nat)
    (key : Option (List Nat)) : Except Err Unit × List (List Nat) :=
  match key with
  | none => (.error .typeError, grid)
  | some bs =>
    match parseIntBytes bs with
    | none => (.error .valueError, grid)
    | some i =>
      if i > 8 ∨ i ≤ 0 then (.error .invalidLSB, grid)
      else (.error .typeError, grid)

/-- Source `LSBEncoder.encode_file`: reads the file contents (passed here as
`content`) and performs the identical call `self.encode(data, xor_key)`,
with the same parameter mix-up and the same failure paths as
`encode_string`. -/
def encodeFileRun (grid : List (List Nat)) (_content : List Nat)
    (key : Option (List Nat)) : Except Err Unit × List (List Nat) :=
  match key with
  | none => (.error .typeError, grid)
  | some bs =>
    match parseIntBytes bs with
    | none => (.error .valueError, grid)
    | some i =>
      if i > 8 ∨ i ≤ 0 then (.error .invalidLSB, grid)
      else (.error .typeError, grid)

/-- Encode followed by decode on the resulting grid: the round-trip subject
of the spec's testable properties (`key` for encoding, `key2` for decoding). -/
def encDec (grid : List (List Nat)) (data : List Nat) (lsb : Nat)
    (key key2 : Option (List Nat)) : Except Err (List Nat) :=
  match encode grid data lsb key with
  | .error e => .error e
  | .ok g => decode g key2

/-- Grid of a successful encode (used to name concrete encoded grids in
closed statements; the fallback is never reached there). -/
def okGrid (e : Except Err (List (List Nat))) : List (List Nat) :=
  match e with
  | .ok g => g
  | .error _ => []

/-- A 4 by 4 pixel grid of zero-valued RGB pixels (48 channels), the grid of
the spec's concrete scenario. -/
def zg16 : List (List Nat) := List.replicate 16 [0, 0, 0]

/-- A 5 by 5 pixel grid of zero-valued RGB pixels (75 channels). -/
def zg25 : List (List Nat) := List.replicate 25 [0, 0, 0]

/-- A 7 pixel grid of zero-valued RGB pixels (21 channels). -/
def zg7 : List (List Nat) := List.replicate 7 [0, 0, 0]

/-- An 18 pixel grid of zero-valued RGB pixels (54 channels). -/
def zg18 : List (List Nat) := List.replicate 18 [0, 0, 0]

/-- A 5 pixel grid of zero-valued RGB pixels (15 channels). -/
def zg5 : List (List Nat) := List.replicate 5 [0, 0, 0]

/-! ### Bitmask arithmetic -/

theorem lor_mul_pow (a b n : Nat) (h : a < 2 ^ n) : a ||| b * 2 ^ n = a + b * 2 ^ n := by
  induction n generalizing a b with
  | zero =>
    have ha : a = 0 := by simpa using h
    subst ha
    simp [Nat.zero_or]
  | succ n ih =>
    have ha : a / 2 < 2 ^ n := by
      rw [Nat.div_lt_iff_lt_mul Nat.two_pos]
      calc a < 2 ^ (n + 1) := h
        _ = 2 ^ n * 2 := by rw [Nat.pow_succ]
    have h1 : a = Nat.bit (decide (a % 2 = 1)) (a / 2) := by
      rcases Nat.mod_two_eq_zero_or_one a with h2 | h2 <;> simp [Nat.bit_val, h2] <;> omega
    have h2 : b * 2 ^ (n + 1) = Nat.bit false (b * 2 ^ n) := by
      simp [Nat.bit_val]
      ring
    rw [h1, h2, Nat.lor_bit, ih _ b ha]
    rcases Nat.mod_two_eq_zero_or_one a with h3 | h3 <;> simp [Nat.bit_val, h3] <;> omega

theorem gen1mask_eq (n : Nat) : gen1mask n = 2 ^ n - 1 := by
  induction n with
  | zero => rfl
  | succ n ih =>
    have hpos : 0 < 2 ^ n := Nat.pos_pow_of_pos n (by norm_num)
    rw [gen1mask, ih, genmask, Nat.shiftLeft_eq,
      lor_mul_pow (2 ^ n - 1) 1 n (by omega)]
    rw [Nat.one_mul, Nat.pow_succ]
    omega

theorem and_gen1mask (x n : Nat) : x &&& gen1mask n = x % 2 ^ n := by
  rw [gen1mask_eq, Nat.and_pow_two_sub_one_eq_mod]

theorem gen0mask_and_gen1mask (n : Nat) (h : n ≤ 8) : gen0mask n &&& gen1mask n = 0 := by
  apply Nat.eq_of_testBit_eq
  intro i
  simp only [gen0mask, gen1mask_eq, CHAN_SIZE, Nat.testBit_land, Nat.testBit_xor,
    Nat.testBit_two_pow_sub_one, Nat.zero_testBit]
  by_cases hi : i < n
  · have h8 : i < 8 := lt_of_lt_of_le hi h
    simp [hi, h8]
  · simp [hi]

theorem enc_chunk_and (lsb a v : Nat) (h : lsb ≤ 8) :
    ((a &&& gen0mask lsb) ||| (v &&& gen1mask lsb)) &&& gen1mask lsb = v % 2 ^ lsb := by
  rw [Nat.and_distrib_right, Nat.and_assoc, gen0mask_and_gen1mask lsb h, Nat.and_zero,
    Nat.zero_or, Nat.and_assoc, Nat.and_self, and_gen1mask]

theorem gen0mask_three : gen0mask 3 = 248 := by decide

theorem gen1mask_three : gen1mask 3 = 7 := by decide

theorem mask8Facts :
    ((0 : Nat) ||| 8 = 8) ∧ ((56 : Nat) ||| 8 = 56) ∧ ((8 : Nat) &&& 248 = 8) ∧
      ((8 : Nat) &&& 7 = 0) ∧ ((56 : Nat) &&& 248 = 56) ∧ ((56 : Nat) &&& 7 = 0) := by
  decide

theorem maskFacts :
    ((1 : Nat) &&& 248 = 0) ∧ ((2 : Nat) &&& 248 = 0) ∧ ((4 : Nat) &&& 248 = 0) ∧
      ((57 : Nat) &&& 248 = 56) ∧ ((58 : Nat) &&& 248 = 56) ∧ ((60 : Nat) &&& 248 = 56) ∧
      ((1 : Nat) &&& 7 = 1) ∧ ((2 : Nat) &&& 7 = 2) ∧ ((4 : Nat) &&& 7 = 4) ∧
      ((57 : Nat) &&& 7 = 1) ∧ ((58 : Nat) &&& 7 = 2) ∧ ((60 : Nat) &&& 7 = 4) ∧
      ((56 : Nat) ||| 1 = 57) ∧ ((56 : Nat) ||| 2 = 58) ∧ ((56 : Nat) ||| 4 = 60) := by
  decide

/-! ### Pixel-level encoder/decoder synchronisation -/

theorem encPx_spec (lsb m0 m1 : Nat) :
    ∀ (px : List Nat) (v s : Nat),
      (encPx lsb m0 m1 px v s).1.length = px.length ∧
      (encPx lsb m0 m1 px v s).2.1 = v >>> (lsb * min s px.length) ∧
      (encPx lsb m0 m1 px v s).2.2 = s - min s px.length := by
  intro px
  induction px with
  | nil => intro v s; simp [encPx]
  | cons a rest ih =>
    intro v s
    by_cases hs : s = 0
    · subst hs; simp [encPx]
    · obtain ⟨s', rfl⟩ : ∃ s', s = s' + 1 := ⟨s - 1, by omega⟩
      simp only [encPx, if_neg hs, Nat.add_sub_cancel, List.length_cons]
      obtain ⟨ih1, ih2, ih3⟩ := ih (v >>> lsb) s'
      have hmin : min (s' + 1) (rest.length + 1) = min s' rest.length + 1 := by omega
      rw [hmin]
      refine ⟨by simpa using ih1, ?_, ?_⟩
      · rw [ih2, ← Nat.shiftRight_add]
        congr 1
        ring
      · rw [ih3]
        omega

theorem pow_mul_bound {val c A B : Nat} (hval : val < A) (hc : c < B) : val + c * A < B * A := by
  have h1 : val + c * A < A + c * A := by omega
  have h2 : A + c * A = (c + 1) * A := by ring
  have h3 : (c + 1) * A ≤ B * A := Nat.mul_le_mul_right A hc
  omega

theorem decPx_enc (lsb : Nat) (h8 : lsb ≤ 8) :
    ∀ (px : List Nat) (v s val pos : Nat), val < 2 ^ (pos * lsb) →
      decPx lsb (gen1mask lsb) ((encPx lsb (gen0mask lsb) (gen1mask lsb) px v s).1) val pos s
        = (val + v % 2 ^ (lsb * min s px.length) * 2 ^ (pos * lsb),
           pos + min s px.length, s - min s px.length) := by
  intro px
  induction px with
  | nil => intro v s val pos hval; simp [encPx, decPx, Nat.mod_one]
  | cons a rest ih =>
    intro v s val pos hval
    by_cases hs : s = 0
    · subst hs; simp [encPx, decPx, Nat.mod_one]
    · obtain ⟨s', rfl⟩ : ∃ s', s = s' + 1 := ⟨s - 1, by omega⟩
      simp only [encPx, if_neg hs, decPx, Nat.add_sub_cancel, List.length_cons]
      rw [enc_chunk_and lsb a v h8, Nat.shiftLeft_eq,
        lor_mul_pow val (v % 2 ^ lsb) (pos * lsb) hval]
      have hmod : v % 2 ^ lsb < 2 ^ lsb := Nat.mod_lt v (Nat.pos_pow_of_pos lsb (by norm_num))
      have hval2 : val + v % 2 ^ lsb * 2 ^ (pos * lsb) < 2 ^ ((pos + 1) * lsb) := by
        have := pow_mul_bound hval hmod
        calc val + v % 2 ^ lsb * 2 ^ (pos * lsb) < 2 ^ lsb * 2 ^ (pos * lsb) := this
          _ = 2 ^ ((pos + 1) * lsb) := by rw [← Nat.pow_add]; ring_nf
      rw [ih (v >>> lsb) s' _ (pos + 1) hval2]
      have hmin : min (s' + 1) (rest.length + 1) = min s' rest.length + 1 := by omega
      rw [hmin]
      simp only [Prod.mk.injEq]
      refine ⟨?_, by omega, by omega⟩
      rw [Nat.shiftRight_eq_div_pow]
      have hsplit : v % 2 ^ (lsb * (min s' rest.length + 1))
          = v % 2 ^ lsb + 2 ^ lsb * (v / 2 ^ lsb % 2 ^ (lsb * min s' rest.length)) := by
        rw [show lsb * (min s' rest.length + 1) = lsb + lsb * min s' rest.length by ring,
          Nat.pow_add]
        exact Nat.mod_mul
      rw [hsplit,
        show (pos + 1) * lsb = pos * lsb + lsb by ring, Nat.pow_add]
      ring

/-! ### List-level encoder/decoder round trip -/

theorem encData_decGo (lsb : Nat) (h8 : lsb ≤ 8) :
    ∀ (ps : List (List Nat)) (v s : Nat), (encData lsb v s ps).2.2 = true →
      ∀ (X : List (List Nat)) (val pos : Nat), val < 2 ^ (pos * lsb) →
        decGo lsb (gen1mask lsb) val pos s ((encData lsb v s ps).1 ++ X)
          = some (val + v % 2 ^ (lsb * s) * 2 ^ (pos * lsb), X) := by
  intro ps
  induction ps with
  | nil =>
    intro v s hok X val pos hval
    cases s with
    | zero => simp [encData, decGo, Nat.mod_one]
    | succ s' => simp [encData] at hok
  | cons px rest ih =>
    intro v s hok X val pos hval
    cases s with
    | zero => simp [encData, decGo, Nat.mod_one]
    | succ s' =>
      obtain ⟨he1, he2, he3⟩ := encPx_spec lsb (gen0mask lsb) (gen1mask lsb) px v (s' + 1)
      simp only [encData] at hok ⊢
      simp only [List.cons_append, decGo]
      rw [decPx_enc lsb h8 px v (s' + 1) val pos hval]
      have hk : min (s' + 1) px.length ≤ s' + 1 := Nat.min_le_left _ _
      have hmod : v % 2 ^ (lsb * min (s' + 1) px.length) < 2 ^ (lsb * min (s' + 1) px.length) :=
        Nat.mod_lt v (Nat.pos_pow_of_pos _ (by norm_num))
      have hval2 : val + v % 2 ^ (lsb * min (s' + 1) px.length) * 2 ^ (pos * lsb)
          < 2 ^ ((pos + min (s' + 1) px.length) * lsb) := by
        have := pow_mul_bound hval hmod
        calc val + v % 2 ^ (lsb * min (s' + 1) px.length) * 2 ^ (pos * lsb)
            < 2 ^ (lsb * min (s' + 1) px.length) * 2 ^ (pos * lsb) := this
          _ = 2 ^ ((pos + min (s' + 1) px.length) * lsb) := by rw [← Nat.pow_add]; ring_nf
      rw [he2, he3] at hok ⊢
      dsimp only
      simp only [List.append_eq]
      rw [ih _ _ hok X _ _ hval2]
      congr 2
      rw [Nat.shiftRight_eq_div_pow]
      have hsplit : v % 2 ^ (lsb * (s' + 1))
          = v % 2 ^ (lsb * min (s' + 1) px.length)
            + 2 ^ (lsb * min (s' + 1) px.length)
              * (v / 2 ^ (lsb * min (s' + 1) px.length)
                  % 2 ^ (lsb * (s' + 1 - min (s' + 1) px.length))) := by
        rw [show lsb * (s' + 1)
            = lsb * min (s' + 1) px.length + lsb * (s' + 1 - min (s' + 1) px.length) by
          rw [← Nat.mul_add]
          congr 1
          omega, Nat.pow_add]
        exact Nat.mod_mul
      rw [hsplit,
        show (pos + min (s' + 1) px.length) * lsb
          = pos * lsb + lsb * min (s' + 1) px.length by ring, Nat.pow_add]
      ring

/-- Top-level form: `_decode_data` recovers the low `lsb * s` bits of the
value that `_encode_data` wrote, leaving exactly the pixels after the written
region. -/
theorem decData_encData (lsb : Nat) (h8 : lsb ≤ 8) (ps X : List (List Nat)) (v s : Nat)
    (hok : (encData lsb v s ps).2.2 = true) :
    decData lsb s ((encData lsb v s ps).1 ++ X) = some (v % 2 ^ (lsb * s), X) := by
  unfold decData
  rw [encData_decGo lsb h8 ps v s hok X 0 0 (by norm_num)]
  norm_num

/-! ### Byte-string / big-integer conversions -/

theorem beval_append (l : List Nat) (b : Nat) : beval (l ++ [b]) = beval l * 256 + b := by
  simp [beval, List.foldl_append]

theorem beval_foldl_lt :
    ∀ (bs : List Nat) (acc : Nat), (∀ x ∈ bs, x < 256) →
      List.foldl (fun a b => a * 256 + b) acc bs < (acc + 1) * 256 ^ bs.length := by
  intro bs
  induction bs with
  | nil => intro acc h; simp
  | cons b rest ih =>
    intro acc h
    simp only [List.foldl_cons, List.length_cons]
    have hb : b < 256 := h b (by simp)
    calc List.foldl (fun a b => a * 256 + b) (acc * 256 + b) rest
        < (acc * 256 + b + 1) * 256 ^ rest.length :=
          ih (acc * 256 + b) (fun x hx => h x (by simp [hx]))
      _ ≤ ((acc + 1) * 256) * 256 ^ rest.length := by
          have : acc * 256 + b + 1 ≤ (acc + 1) * 256 := by omega
          exact Nat.mul_le_mul_right _ this
      _ = (acc + 1) * 256 ^ (rest.length + 1) := by ring

theorem beval_lt (bs : List Nat) (h : ∀ x ∈ bs, x < 256) : beval bs < 256 ^ bs.length := by
  have := beval_foldl_lt bs 0 h
  simpa [beval] using this

theorem toBytesBE_beval :
    ∀ (bs : List Nat), (∀ x ∈ bs, x < 256) → toBytesBE (beval bs) bs.length = bs := by
  intro bs
  induction bs using List.reverseRecOn with
  | nil => intro h; simp [toBytesBE, beval]
  | append_singleton l b ih =>
    intro h
    have hb : b < 256 := h b (by simp)
    rw [beval_append, List.length_append, List.length_singleton, toBytesBE]
    have hdiv : (beval l * 256 + b) / 256 = beval l := by omega
    have hmod : (beval l * 256 + b) % 256 = b := by omega
    rw [hdiv, hmod, ih (fun x hx => h x (by simp [hx]))]

theorem hexLenGo_le : ∀ (fuel i n : Nat), i ≤ fuel → 1 ≤ n → i < 16 ^ n →
    hexLenGo fuel i ≤ n := by
  intro fuel
  induction fuel with
  | zero =>
    intro i n hif hn hpow
    simp only [hexLenGo]
    omega
  | succ fuel ih =>
    intro i n hif hn hpow
    rw [hexLenGo]
    split
    · omega
    · rename_i hge
      push_neg at hge
      have hn2 : 2 ≤ n := by
        rcases Nat.lt_or_ge n 2 with hc | hc
        · have hn1 : n = 1 := by omega
          subst hn1
          simp only [pow_one] at hpow
          omega
        · exact hc
      have hsplit : 16 ^ n = 16 ^ (n - 1) * 16 := by
        rw [← Nat.pow_succ]
        congr 1
        omega
      have hdiv : i / 16 < 16 ^ (n - 1) := by
        rw [Nat.div_lt_iff_lt_mul (by norm_num)]
        omega
      have hfuel : i / 16 ≤ fuel := by
        have : i / 16 < i := Nat.div_lt_self (by omega) (by norm_num)
        omega
      have := ih (i / 16) (n - 1) hfuel (by omega) hdiv
      omega

theorem hexLen_le (i len : Nat) (hlen : 1 ≤ len) (h : i < 256 ^ len) : hexLen i ≤ 2 * len := by
  unfold hexLen
  refine hexLenGo_le i i (2 * len) le_rfl (by omega) ?_
  calc i < 256 ^ len := h
    _ = 16 ^ (2 * len) := by rw [Nat.pow_mul]

theorem int_to_bytes_beval (bs : List Nat) (hne : bs ≠ []) (h : ∀ x ∈ bs, x < 256) :
    int_to_bytes (beval bs) bs.length = some bs := by
  have hlen : 1 ≤ bs.length := List.length_pos.mpr hne
  have hlt := beval_lt bs h
  have hhl := hexLen_le (beval bs) bs.length hlen hlt
  unfold int_to_bytes
  have hmax : max (hexLen (beval bs)) (bs.length * 2) = bs.length * 2 := by omega
  simp only [hmax]
  have hodd : ¬ bs.length * 2 % 2 = 1 := by omega
  rw [if_neg hodd]
  have hdiv : bs.length * 2 / 2 = bs.length := by omega
  rw [hdiv, toBytesBE_beval bs h]

/-! ### XOR stream -/

theorem xorCycle_nil (k : List Nat) : xorCycle [] k = [] := by
  unfold xorCycle
  split <;> simp

theorem xorCycle_length (d k : List Nat) (hk : k ≠ []) : (xorCycle d k).length = d.length := by
  have hk' : ¬ k.isEmpty = true := by simp [hk]
  simp [xorCycle, hk']

theorem xorCycle_ne_nil (d k : List Nat) (hd : d ≠ []) (hk : k ≠ []) : xorCycle d k ≠ [] := by
  have h1 := xorCycle_length d k hk
  intro h2
  rw [h2] at h1
  simp at h1
  exact hd (List.length_eq_zero.mp h1.symm)

theorem xorCycle_lt (d k : List Nat) (hd : ∀ x ∈ d, x < 256) (hk : ∀ x ∈ k, x < 256) :
    ∀ x ∈ xorCycle d k, x < 256 := by
  intro x hx
  unfold xorCycle at hx
  split at hx
  · simp at hx
  · rename_i hke
    have hkne : k ≠ [] := by simpa using hke
    have hkpos : 0 < k.length := List.length_pos.mpr hkne
    simp only [List.mem_map, List.mem_range] at hx
    obtain ⟨i, hi, rfl⟩ := hx
    have h1 : d.getD i 0 < 256 := by
      rw [List.getD_eq_getElem d 0 hi]
      exact hd _ (List.getElem_mem _)
    have h2 : k.getD (i % k.length) 0 < 256 := by
      rw [List.getD_eq_getElem k 0 (Nat.mod_lt i hkpos)]
      exact hk _ (List.getElem_mem _)
    have h256 : (256 : Nat) = 2 ^ 8 := by norm_num
    rw [h256] at h1 h2 ⊢
    exact Nat.xor_lt_two_pow h1 h2

theorem xorCycle_getElem (d k : List Nat) (hk : k ≠ []) (n : Nat)
    (hn : n < (xorCycle d k).length) :
    (xorCycle d k)[n] = d.getD n 0 ^^^ k.getD (n % k.length) 0 := by
  have hk' : ¬ k.isEmpty = true := by simp [hk]
  have he : xorCycle d k
      = (List.range d.length).map fun i => d.getD i 0 ^^^ k.getD (i % k.length) 0 := by
    simp [xorCycle, hk']
  have hn' : n < d.length := by
    have := xorCycle_length d k hk
    omega
  rw [List.getElem_of_eq he, List.getElem_map, List.getElem_range]

theorem xorCycle_xorCycle (d k : List Nat) (hk : k ≠ []) : xorCycle (xorCycle d k) k = d := by
  apply List.ext_getElem
  · rw [xorCycle_length _ _ hk, xorCycle_length _ _ hk]
  · intro n h1 h2
    rw [xorCycle_getElem _ _ hk n h1]
    have hinner : n < (xorCycle d k).length := by rw [xorCycle_length _ _ hk]; exact h2
    rw [List.getD_eq_getElem _ 0 hinner, xorCycle_getElem _ _ hk n hinner,
      List.getD_eq_getElem d 0 h2, Nat.xor_cancel_right]

/-! ### Inversion of a successful encode -/

theorem encode_ok_inv (grid : List (List Nat)) (data : List Nat) (lsb : Nat)
    (key : Option (List Nat)) (G : List (List Nat)) (h : encode grid data lsb key = .ok G) :
    ∃ dint d1 r1 d2 r2 d3 r3,
      (1 ≤ lsb ∧ lsb ≤ CHAN_SIZE) ∧
      ¬ (data.length : Int) > available (gridSize grid) lsb ∧
      bytes_to_int (match key with | none => data | some k => xorCycle data k) = some dint ∧
      encData 1 ((match key with | none => XOR_N | some _ => XOR_Y) ||| lsb)
        (PROLOG_SIZE * CHAN_CNT) grid = (d1, r1, true) ∧
      encData lsb data.length (LEN_SIZE * CHAN_SIZE / lsb) r1 = (d2, r2, true) ∧
      encData lsb dint (dataShifts data.length lsb) r2 = (d3, r3, true) ∧
      G = d1 ++ (d2 ++ (d3 ++ r3)) := by
  unfold encode at h
  split at h
  case h_2 => exact absurd h (by simp)
  case h_1 u g heq =>
    have hG : g = G := by
      injection h with h
    subst hG
    unfold encodeRun at heq
    split at heq
    · exact absurd heq (by simp)
    · split at heq
      · exact absurd heq (by simp)
      · rename_i hlsb hcap
        split at heq
        · exact absurd heq (by simp)
        · rename_i dint hdint
          split at heq
          · exact absurd heq (by simp)
          · rename_i d1 r1 h1
            split at heq
            · exact absurd heq (by simp)
            · rename_i d2 r2 h2
              split at heq
              · exact absurd heq (by simp)
              · rename_i d3 r3 h3
                refine ⟨dint, d1, r1, d2, r2, d3, r3, by omega, hcap, hdint, h1, h2, h3, ?_⟩
                injection heq with _ hg
                simp [← hg]

/-- Reading back the prologue: the decoder's first `_decode_data` pass
returns the 6 stored prologue bits, for any tail following the prologue
pixels. -/
theorem decode_read1 (prolog : Nat) (grid d1 r1 X : List (List Nat))
    (h1 : encData 1 prolog (PROLOG_SIZE * CHAN_CNT) grid = (d1, r1, true)) :
    decData 1 (PROLOG_SIZE * CHAN_CNT) (d1 ++ X) = some (prolog % 64, X) := by
  have := decData_encData 1 (by norm_num) grid X prolog (PROLOG_SIZE * CHAN_CNT) (by rw [h1])
  rw [h1] at this
  simpa using this

/-- Reading back an encoded grid: the decoder's three `_decode_data` passes
return the prologue (modulo its 6 stored bits), the length field and the
payload integer exactly, each consuming exactly the pixels the corresponding
encoder pass wrote. -/
theorem decode_reads (lsb : Nat) (h8 : lsb ≤ 8) (prolog : Nat)
    (grid d1 r1 d2 r2 d3 r3 : List (List Nat)) (L dint : Nat)
    (h1 : encData 1 prolog (PROLOG_SIZE * CHAN_CNT) grid = (d1, r1, true))
    (h2 : encData lsb L (LEN_SIZE * CHAN_SIZE / lsb) r1 = (d2, r2, true))
    (h3 : encData lsb dint (dataShifts L lsb) r2 = (d3, r3, true))
    (hL1 : lsb * (LEN_SIZE * CHAN_SIZE / lsb) = 32) (hLlt : L < 2 ^ 32)
    (hD : lsb * dataShifts L lsb = 8 * L) (hdlt : dint < 2 ^ (8 * L)) :
    decData 1 (PROLOG_SIZE * CHAN_CNT) (d1 ++ (d2 ++ (d3 ++ r3)))
        = some (prolog % 64, d2 ++ (d3 ++ r3)) ∧
      decData lsb (LEN_SIZE * CHAN_SIZE / lsb) (d2 ++ (d3 ++ r3)) = some (L, d3 ++ r3) ∧
      decData lsb (dataShifts L lsb) (d3 ++ r3) = some (dint, r3) := by
  refine ⟨decode_read1 prolog grid d1 r1 (d2 ++ (d3 ++ r3)) h1, ?_, ?_⟩
  · have := decData_encData lsb h8 r1 (d3 ++ r3) L (LEN_SIZE * CHAN_SIZE / lsb) (by rw [h2])
    rw [h2, hL1] at this
    rw [Nat.mod_eq_of_lt hLlt] at this
    exact this
  · have := decData_encData lsb h8 r2 r3 dint (dataShifts L lsb) (by rw [h3])
    rw [h3, hD] at this
    rw [Nat.mod_eq_of_lt hdlt] at this
    exact this

/-- Unpacking `bytes_to_int ... = some dint`. -/
theorem bytes_to_int_some (bs : List Nat) (dint : Nat) (h : bytes_to_int bs = some dint) :
    bs ≠ [] ∧ dint = beval bs := by
  unfold bytes_to_int at h
  split at h
  · exact absurd h (by simp)
  · rename_i he
    refine ⟨by simpa using he, ?_⟩
    injection h with h
    exact h.symm

/-- Bound transfer from `beval` to a power of two. -/
theorem beval_lt_two_pow (bs : List Nat) (h : ∀ x ∈ bs, x < 256) :
    beval bs < 2 ^ (8 * bs.length) := by
  have := beval_lt bs h
  calc beval bs < 256 ^ bs.length := this
    _ = 2 ^ (8 * bs.length) := by rw [Nat.pow_mul]

/-- With enough pixels of 3 channels, `_encode_data` succeeds, consuming
exactly `⌈shifts / 3⌉` pixels. -/
theorem encData_ok (lsb : Nat) :
    ∀ (ps : List (List Nat)) (v s : Nat), (∀ px ∈ ps, px.length = 3) →
      (s + 2) / 3 ≤ ps.length →
      (encData lsb v s ps).2.2 = true ∧ (encData lsb v s ps).2.1 = ps.drop ((s + 2) / 3) := by
  intro ps
  induction ps with
  | nil =>
    intro v s h3 hs
    simp only [List.length_nil, Nat.le_zero] at hs
    have : s = 0 := by omega
    subst this
    simp [encData]
  | cons px rest ih =>
    intro v s h3 hs
    cases s with
    | zero => simp [encData]
    | succ s' =>
      have hpx : px.length = 3 := h3 px (by simp)
      obtain ⟨he1, he2, he3⟩ := encPx_spec lsb (gen0mask lsb) (gen1mask lsb) px v (s' + 1)
      rw [hpx] at he2 he3
      simp only [List.length_cons] at hs
      obtain ⟨ihok, ihrest⟩ := ih (v >>> (lsb * min (s' + 1) 3)) (s' + 1 - min (s' + 1) 3)
        (fun q hq => h3 q (by simp [hq])) (by omega)
      simp only [encData]
      constructor
      · rw [he2, he3]
        exact ihok
      · rw [he2, he3, ihrest]
        obtain ⟨m, hm⟩ : ∃ m, (s' + 1 + 2) / 3 = m + 1 := ⟨(s' + 1 + 2) / 3 - 1, by omega⟩
        rw [hm, List.drop_succ_cons]
        congr 1
        omega

/-- Channel count of a grid of 3-channel pixels. -/
theorem gridSize_three (g : List (List Nat)) (h3 : ∀ px ∈ g, px.length = 3) :
    gridSize g = 3 * g.length := by
  induction g with
  | nil => simp [gridSize]
  | cons px rest ih =>
    have hpx : px.length = 3 := h3 px (by simp)
    have := ih (fun q hq => h3 q (by simp [hq]))
    simp only [gridSize, List.map_cons, List.sum_cons, List.length_cons] at this ⊢
    omega

/-- Python-free form of `available` at bit width 1. -/
theorem available_one (n : Nat) (h : 2 ≤ n) :
    available n 1 = (((n - 2) / 8 : Nat) : Int) - 4 - 1 := by
  unfold available
  have h1 : ((n : Int) - (PROLOG_SIZE : Nat)) = ((n - 2 : Nat) : Int) := by
    simp only [PROLOG_SIZE]
    omega
  have h2 : ((CHAN_SIZE / 1 : Nat) : Int) = ((8 : Nat) : Int) := by norm_num [CHAN_SIZE]
  rw [h1, h2, ← Int.ofNat_ediv]
  norm_num [LEN_SIZE]

/-- Expected outcome of decoding a grid that was encoded with key `key`
(storing payload `data`) when the decoder is given `key2`. -/
def expectedDecode (data : List Nat) (key key2 : Option (List Nat)) : Except Err (List Nat) :=
  match key, key2 with
  | none, _ => .ok data
  | some _, none => .error .missingXOR
  | some k, some k2 => .ok (xorCycle (xorCycle data k) k2)

/-- Decoding a grid produced by a successful encode at bit width 1, 2 or 4:
with no stored key the payload is returned for any supplied key; with a
stored key, decoding without a key fails `MissingXOR` and decoding with any
key XORs the stored (already XOR-ed) bytes with it. -/
theorem decode_encode_core (grid : List (List Nat)) (data : List Nat) (lsb : Nat)
    (key : Option (List Nat)) (G : List (List Nat))
    (hbw : lsb = 1 ∨ lsb = 2 ∨ lsb = 4)
    (hd : ∀ b ∈ data, b < 256)
    (hlen : data.length < 4294967296)
    (hkey : ∀ k, key = some k → k ≠ [] ∧ ∀ b ∈ k, b < 256)
    (henc : encode grid data lsb key = .ok G) (key2 : Option (List Nat)) :
    decode G key2 = expectedDecode data key key2 := by
  obtain ⟨dint, d1, r1, d2, r2, d3, r3, hlsb, hcap, hdint, h1, h2, h3, hG⟩ :=
    encode_ok_inv grid data lsb key G henc
  have hlen32 : data.length < 2 ^ 32 := by
    rw [show (2 : Nat) ^ 32 = 4294967296 from by norm_num]
    exact hlen
  rcases key with _ | k
  · obtain ⟨hne, hdv⟩ := bytes_to_int_some data dint hdint
    have hdb : dint < 2 ^ (8 * data.length) := hdv ▸ beval_lt_two_pow data hd
    have hitb : int_to_bytes dint data.length = some data := by
      rw [hdv]
      exact int_to_bytes_beval data hne hd
    rcases hbw with rfl | rfl | rfl <;>
      (obtain ⟨hr1, hr2, hr3⟩ := decode_reads _ (by norm_num) _ grid d1 r1 d2 r2 d3 r3
        data.length dint h1 h2 h3 (by decide) hlen32
        (by simp only [dataShifts, CHAN_SIZE]; omega) hdb
       norm_num [XOR_N, maskFacts] at hr1
       norm_num [LEN_SIZE, CHAN_SIZE, dataShifts] at hr2 hr3
       rw [hG]
       unfold decode
       rw [hr1]
       simp [gen0mask_three, gen1mask_three, maskFacts, XOR_Y, XOR_N, CHAN_SIZE, LEN_SIZE,
         CHAN_CNT, dataShifts, hr2, hr3, hitb, expectedDecode])
  · obtain ⟨hkne, hkb⟩ := hkey k rfl
    obtain ⟨hne2, hdv⟩ := bytes_to_int_some (xorCycle data k) dint hdint
    have hlen2 : (xorCycle data k).length = data.length := xorCycle_length data k hkne
    have hb2 : ∀ x ∈ xorCycle data k, x < 256 := xorCycle_lt data k hd hkb
    have hdb : dint < 2 ^ (8 * data.length) := by
      have := beval_lt_two_pow (xorCycle data k) hb2
      rw [hlen2] at this
      exact hdv ▸ this
    have hitb : int_to_bytes dint data.length = some (xorCycle data k) := by
      have := int_to_bytes_beval (xorCycle data k) hne2 hb2
      rw [hlen2] at this
      rw [hdv]
      exact this
    rcases hbw with rfl | rfl | rfl <;> rcases key2 with _ | k2 <;>
      (obtain ⟨hr1, hr2, hr3⟩ := decode_reads _ (by norm_num) _ grid d1 r1 d2 r2 d3 r3
        data.length dint h1 h2 h3 (by decide) hlen32
        (by simp only [dataShifts, CHAN_SIZE]; omega) hdb
       norm_num [XOR_Y, maskFacts] at hr1
       norm_num [LEN_SIZE, CHAN_SIZE, dataShifts] at hr2 hr3
       rw [hG]
       unfold decode
       rw [hr1]
       simp [gen0mask_three, gen1mask_three, maskFacts, XOR_Y, XOR_N, CHAN_SIZE, LEN_SIZE,
         CHAN_CNT, dataShifts, hr2, hr3, hitb, expectedDecode])

/-- Shared helper: the capacity check fires before any grid write, returning
`TooMuchData` with the grid in its pre-call state. -/
theorem encodeRun_tooMuch (grid : List (List Nat)) (data : List Nat) (lsb : Nat)
    (key : Option (List Nat)) (h1 : 1 ≤ lsb) (h8 : lsb ≤ 8)
    (hcap : (data.length : Int) > available (gridSize grid) lsb) :
    encodeRun grid data lsb key = (.error .tooMuchData, grid) := by
  unfold encodeRun
  rw [if_neg (by simp only [CHAN_SIZE]; omega), if_pos hcap]

/-- The grid of the concrete "ABC" scenario, encoded on a 5 by 5 zero grid
at bit width 1 with no key. -/
def gABC : List (List Nat) := okGrid (encode zg25 [65, 66, 67] 1 none)

/-- The grid of [0] encoded on an 18 pixel zero grid at bit width 1 with key
[1, 2]. -/
def gKey : List (List Nat) := okGrid (encode zg18 [0] 1 (some [1, 2]))

/-- The grid of [65] encoded on a 5 pixel zero grid at bit width 8, no key. -/
def gBW8 : List (List Nat) := okGrid (encode zg5 [65] 8 none)

/-! ### Claim C1 -/

/-- C1 (counterexample): with bit width 3 (which is in the spec's range
[1, 7]) and the 1-byte payload [255] on a 7 pixel zero grid of capacity 4,
encoding succeeds but decoding returns [63], not [255]: the payload phase
writes only ⌊8/3⌋ = 2 chunks of 3 bits, dropping the top two bits. -/
theorem c1_counterexample :
    encDec zg7 [255] 3 none none = .ok [63] ∧
      (Except.ok [63] : Except Err (List Nat)) ≠ .ok [255] ∧
      (1 : Int) ≤ available (gridSize zg7) 3 := by
  refine ⟨rfl, by simp, by decide⟩

/-- C1 (amended): for bit widths 1, 2 and 4 (the divisors of 8 below 8),
byte-valued payloads shorter than 2^32 and an absent or non-empty byte key,
whenever encoding succeeds (which entails `len(D) ≤ available`), decoding the
produced grid with the same key returns exactly the payload. -/
theorem c1_roundtrip_amended (grid G : List (List Nat)) (data : List Nat) (bw : Nat)
    (key : Option (List Nat))
    (hbw : bw = 1 ∨ bw = 2 ∨ bw = 4)
    (hdata : ∀ b ∈ data, b < 256)
    (hlen : data.length < 4294967296)
    (hkey : ∀ k, key = some k → k ≠ [] ∧ ∀ b ∈ k, b < 256)
    (henc : encode grid data bw key = .ok G) :
    decode G key = .ok data := by
  rw [decode_encode_core grid data bw key G hbw hdata hlen hkey henc key]
  rcases key with _ | k
  · rfl
  · obtain ⟨hkne, _⟩ := hkey k rfl
    simp [expectedDecode, xorCycle_xorCycle data k hkne]

/-- Witness for C1 at the concrete "ABC" scenario. -/
theorem c1_roundtrip_witness : decode gABC none = .ok [65, 66, 67] :=
  c1_roundtrip_amended zg25 gABC [65, 66, 67] 1 none (Or.inl rfl) (by decide) (by decide)
    (fun _ hk => nomatch hk) rfl

/-! ### Claim C2 -/

/-- C2 (counterexample): at payload size 1 and bit width 3 the payload phase
passes `1 * 8 // 3 = 2` chunks, not `⌈1·8/3⌉ = 3` as the claim states. -/
theorem c2_counterexample :
    dataShifts 1 3 = 2 ∧ (1 * 8 + 3 - 1) / 3 = 3 ∧ dataShifts 1 3 ≠ (1 * 8 + 3 - 1) / 3 := by
  decide

/-- C2 (amended): the payload phase writes exactly `⌊size·8/BitWidth⌋` chunks
of BitWidth bits (floor, not ceiling), least-significant chunk of V first,
and the decoder reads the same `dataShifts` count back, reconstructing
`V mod 2^(BitWidth·chunkCount)`. -/
theorem c2_floor_chunks (size bw : Nat) (_hbw1 : 1 ≤ bw) (hbw8 : bw ≤ 8) :
    dataShifts size bw = size * 8 / bw ∧
      ∀ (v : Nat) (ps X : List (List Nat)),
        (encData bw v (dataShifts size bw) ps).2.2 = true →
        decData bw (dataShifts size bw) ((encData bw v (dataShifts size bw) ps).1 ++ X)
          = some (v % 2 ^ (bw * dataShifts size bw), X) :=
  ⟨rfl, fun v ps X hok => decData_encData bw hbw8 ps X v _ hok⟩

/-- Witness for C2 at size 1, bit width 3, value 255 on a 7 pixel zero grid. -/
theorem c2_floor_chunks_witness :
    dataShifts 1 3 = 1 * 8 / 3 ∧
      decData 3 (dataShifts 1 3) ((encData 3 255 (dataShifts 1 3) zg7).1 ++ [])
        = some (255 % 2 ^ (3 * dataShifts 1 3), []) :=
  ⟨(c2_floor_chunks 1 3 (by decide) (by decide)).1,
    (c2_floor_chunks 1 3 (by decide) (by decide)).2 255 zg7 [] (by decide)⟩

/-! ### Claim C3 -/

/-- C3 (counterexample): on a 42 channel grid at bit width 1 the code's
`available` gives 0 while the spec's formula (subtracting 6 prologue
channels) gives −1: the code subtracts `PROLOG_SIZE = 2`, a pixel count, not
`prologueChannels = 6`. -/
theorem c3_counterexample :
    available 42 1 = 0 ∧ availableSpec 42 1 = -1 ∧ available 42 1 ≠ availableSpec 42 1 := by
  decide

/-- C3 (amended): `available` equals
`((gridChannelCount − 2) // (8 // bitWidth)) − 4 − 1`: the subtrahend of the
numerator is the constant `PROLOG_SIZE = 2` (the prologue's pixel count),
not the 6 prologue channels of the spec's formula. -/
theorem c3_available_formula (n bw : Nat) :
    available n bw = ((n : Int) - 2) / (((8 / bw : Nat) : Int)) - 4 - 1 := rfl

/-! ### Claim C4 -/

/-- C4 (counterexample): on the 4 by 4 by 3 zero grid at bit width 4,
`available = 18`, yet encoding exactly 18 bytes does not succeed: the
encoder runs out of pixels (`StopIteration`) because the capacity formula
ignores both the channels-vs-pixels mismatch in the prologue term and the
channels wasted at pixel boundaries. -/
theorem c4_counterexample :
    encode zg16 (List.replicate 18 0) 4 none = .error .stopIteration ∧
      ((List.replicate 18 0 : List Nat).length : Int) = available (gridSize zg16) 4 := by
  exact ⟨rfl, by decide⟩

/-- C4 (amended): encoding `available + 1` bytes always fails with
`TooMuchData` (for any valid bit width, before touching the grid), and at
bit width 1 on a grid of 3-channel pixels encoding exactly `available ≥ 1`
bytes succeeds; at other bit widths an exactly-full payload may instead
exhaust the pixel iterator (see the counterexample). -/
theorem c4_boundary_amended :
    (∀ (grid : List (List Nat)) (data : List Nat) (lsb : Nat) (key : Option (List Nat)),
        1 ≤ lsb → lsb ≤ 8 →
        (data.length : Int) = available (gridSize grid) lsb + 1 →
        encode grid data lsb key = .error .tooMuchData) ∧
      (∀ (grid : List (List Nat)) (data : List Nat),
        (∀ px ∈ grid, px.length = 3) →
        1 ≤ available (gridSize grid) 1 →
        (data.length : Int) = available (gridSize grid) 1 →
        ∃ G, encode grid data 1 none = .ok G) := by
  constructor
  · intro grid data lsb key h1 h8 hlen
    unfold encode
    rw [encodeRun_tooMuch grid data lsb key h1 h8 (by omega)]
  · intro grid data h3 hpos hlen
    have hgs : gridSize grid = 3 * grid.length := gridSize_three grid h3
    have hsmall : ∀ n, n < 2 → available n 1 < 1 := by decide
    have h2n : 2 ≤ gridSize grid := by
      by_contra hc
      push_neg at hc
      have := hsmall _ hc
      omega
    rw [available_one _ h2n] at hpos hlen
    have hbound : 8 * data.length + 42 ≤ 3 * grid.length := by
      rw [hgs] at hpos hlen
      omega
    have hsize1 : 1 ≤ data.length := by omega
    have hd : data ≠ [] := by
      intro h
      rw [h] at hsize1
      simp at hsize1
    unfold encode encodeRun
    rw [if_neg (by simp only [CHAN_SIZE]; omega)]
    rw [if_neg (by rw [available_one _ h2n]; omega)]
    have hbi : bytes_to_int data = some (beval data) := by
      simp [bytes_to_int, hd]
    rw [hbi]
    obtain ⟨hok1, hr1⟩ := encData_ok 1 grid (XOR_N ||| 1) (PROLOG_SIZE * CHAN_CNT) h3
      (by simp only [PROLOG_SIZE, CHAN_CNT]; omega)
    have he1 : encData 1 (XOR_N ||| 1) (PROLOG_SIZE * CHAN_CNT) grid
        = ((encData 1 (XOR_N ||| 1) (PROLOG_SIZE * CHAN_CNT) grid).1,
           grid.drop ((PROLOG_SIZE * CHAN_CNT + 2) / 3), true) := by
      rw [← hok1, ← hr1]
    rw [he1]
    dsimp only
    have h3a : ∀ px ∈ grid.drop ((PROLOG_SIZE * CHAN_CNT + 2) / 3), px.length = 3 :=
      fun q hq => h3 q (List.mem_of_mem_drop hq)
    have hlena : (grid.drop ((PROLOG_SIZE * CHAN_CNT + 2) / 3)).length
        = grid.length - 2 := by
      rw [List.length_drop]
      norm_num [PROLOG_SIZE, CHAN_CNT]
    obtain ⟨hok2, hr2⟩ := encData_ok 1 (grid.drop ((PROLOG_SIZE * CHAN_CNT + 2) / 3))
      data.length (LEN_SIZE * CHAN_SIZE / 1) h3a
      (by simp only [LEN_SIZE, CHAN_SIZE, hlena]; omega)
    have he2 : encData 1 data.length (LEN_SIZE * CHAN_SIZE / 1)
          (grid.drop ((PROLOG_SIZE * CHAN_CNT + 2) / 3))
        = ((encData 1 data.length (LEN_SIZE * CHAN_SIZE / 1)
              (grid.drop ((PROLOG_SIZE * CHAN_CNT + 2) / 3))).1,
           (grid.drop ((PROLOG_SIZE * CHAN_CNT + 2) / 3)).drop
             ((LEN_SIZE * CHAN_SIZE / 1 + 2) / 3), true) := by
      rw [← hok2, ← hr2]
    rw [he2]
    dsimp only
    have h3b : ∀ px ∈ (grid.drop ((PROLOG_SIZE * CHAN_CNT + 2) / 3)).drop
        ((LEN_SIZE * CHAN_SIZE / 1 + 2) / 3), px.length = 3 :=
      fun q hq => h3a q (List.mem_of_mem_drop hq)
    have hlenb : ((grid.drop ((PROLOG_SIZE * CHAN_CNT + 2) / 3)).drop
          ((LEN_SIZE * CHAN_SIZE / 1 + 2) / 3)).length
        = grid.length - 2 - 11 := by
      rw [List.length_drop, hlena]
      norm_num [LEN_SIZE, CHAN_SIZE]
    obtain ⟨hok3, hr3⟩ := encData_ok 1 ((grid.drop ((PROLOG_SIZE * CHAN_CNT + 2) / 3)).drop
        ((LEN_SIZE * CHAN_SIZE / 1 + 2) / 3))
      (beval data) (dataShifts data.length 1) h3b
      (by rw [hlenb]; simp only [dataShifts, CHAN_SIZE]; omega)
    have he3 : encData 1 (beval data) (dataShifts data.length 1)
          ((grid.drop ((PROLOG_SIZE * CHAN_CNT + 2) / 3)).drop
            ((LEN_SIZE * CHAN_SIZE / 1 + 2) / 3))
        = ((encData 1 (beval data) (dataShifts data.length 1)
             ((grid.drop ((PROLOG_SIZE * CHAN_CNT + 2) / 3)).drop
               ((LEN_SIZE * CHAN_SIZE / 1 + 2) / 3))).1,
           ((grid.drop ((PROLOG_SIZE * CHAN_CNT + 2) / 3)).drop
             ((LEN_SIZE * CHAN_SIZE / 1 + 2) / 3)).drop
             ((dataShifts data.length 1 + 2) / 3), true) := by
      rw [← hok3, ← hr3]
    rw [he3]
    dsimp only
    exact ⟨_, rfl⟩

/-- Witness for C4: one byte on a full 4 by 4 grid (capacity 0) fails with
`TooMuchData`; one byte on an 18 pixel grid (capacity 1) succeeds. -/
theorem c4_boundary_witness :
    encode zg16 (List.replicate 1 0) 1 none = .error .tooMuchData ∧
      ∃ G, encode zg18 [7] 1 none = .ok G :=
  ⟨c4_boundary_amended.1 zg16 (List.replicate 1 0) 1 none (by decide) (by decide) (by decide),
    c4_boundary_amended.2 zg18 [7] (by decide) (by decide) (by decide)⟩

/-! ### Claim C5 -/

/-- C5: whenever the payload exceeds the available capacity (and the bit
width is valid, so that the earlier `lsb_check` passes), `encode` fails with
`TooMuchData` and the pixel grid after the call is exactly the pre-call
grid: the capacity check precedes every `_encode_data` write. -/
theorem c5_no_partial_write (grid : List (List Nat)) (data : List Nat) (lsb : Nat)
    (key : Option (List Nat)) (h1 : 1 ≤ lsb) (h8 : lsb ≤ 8)
    (hcap : (data.length : Int) > available (gridSize grid) lsb) :
    encodeRun grid data lsb key = (.error .tooMuchData, grid) :=
  encodeRun_tooMuch grid data lsb key h1 h8 hcap

/-- Witness for C5: 19 bytes on the 4 by 4 grid at bit width 4
(capacity 18). -/
theorem c5_no_partial_write_witness :
    encodeRun zg16 (List.replicate 19 0) 4 none = (.error .tooMuchData, zg16) :=
  c5_no_partial_write zg16 (List.replicate 19 0) 4 none (by decide) (by decide) (by decide)

/-! ### Claim C6 -/

/-- C6 (counterexample): on the 4 by 4 zero grid (`available = 0` at bit
width 1, so capacity is non-negative) encoding the empty buffer does not
succeed: `bytes_to_int` is `int(binascii.hexlify(b""), 16) = int(b"", 16)`,
which raises `ValueError`. -/
theorem c6_counterexample :
    encode zg16 [] 1 none = .error .valueError ∧ (0 : Int) ≤ available (gridSize zg16) 1 := by
  exact ⟨rfl, by decide⟩

/-- C6 (amended): for every grid with non-negative available capacity and
every valid bit width and key, encoding the empty byte buffer fails with
`ValueError` (raised by `int(b"", 16)` inside `bytes_to_int`), instead of
succeeding as the claim states. -/
theorem c6_empty_fails (grid : List (List Nat)) (lsb : Nat) (key : Option (List Nat))
    (h1 : 1 ≤ lsb) (h8 : lsb ≤ 8) (hcap : 0 ≤ available (gridSize grid) lsb) :
    encode grid [] lsb key = .error .valueError := by
  unfold encode encodeRun
  rw [if_neg (by simp only [CHAN_SIZE]; omega)]
  rw [if_neg (by simp only [List.length_nil, Nat.cast_zero]; omega)]
  have h3 : bytes_to_int (match key with | none => ([] : List Nat) | some k => xorCycle [] k)
      = none := by
    cases key <;> simp [bytes_to_int, xorCycle_nil]
  rw [h3]

/-- Witness for C6 on the 4 by 4 zero grid at bit width 1 with no key. -/
theorem c6_empty_fails_witness : encode zg16 [] 1 none = .error .valueError :=
  c6_empty_fails zg16 1 none (by decide) (by decide) (by decide)

/-! ### Claim C7 -/

/-- C7 (counterexample): on the 4 by 4 by 3 zero grid, `available(48, 1) = 0`
is smaller than the 3-byte payload, so the claimed concrete scenario fails
with `TooMuchData` instead of succeeding. -/
theorem c7_counterexample :
    encode zg16 [65, 66, 67] 1 none = .error .tooMuchData ∧
      available (gridSize zg16) 1 = 0 := by
  exact ⟨rfl, by decide⟩

/-- C7 (amended): the scenario runs as described on a grid with enough
capacity, e.g. 5 by 5 by 3 (75 channels, `available = 4`): encoding
0x41 0x42 0x43 at bit width 1 with no key succeeds, the stored 6-bit
prologue decodes to 1 (obfuscation flag 0b000, bit width 1), the LengthField
decodes to 3, and decoding returns exactly 0x41 0x42 0x43; on the original
4 by 4 grid the same encode fails with `TooMuchData`. -/
theorem c7_scenario_amended :
    encode zg25 [65, 66, 67] 1 none = .ok gABC ∧
      decode gABC none = .ok [65, 66, 67] ∧
      (decData 1 (PROLOG_SIZE * CHAN_CNT) gABC).map Prod.fst = some 1 ∧
      ((decData 1 (PROLOG_SIZE * CHAN_CNT) gABC).bind fun pr =>
          (decData 1 (LEN_SIZE * CHAN_SIZE / 1) pr.2).map Prod.fst) = some 3 := by
  exact ⟨rfl, rfl, rfl, rfl⟩

/-! ### Claim C8 -/

/-- C8 (counterexample): [0] encoded on an 18 pixel zero grid with key
[1, 2]; decoding with the different key [1, 3] returns exactly the original
payload [0] (the two keys agree on every position the 1-byte payload uses),
refuting "bytes that do not equal the original payload". -/
theorem c8_counterexample :
    encode zg18 [0] 1 (some [1, 2]) = .ok gKey ∧
      decode gKey (some [1, 3]) = .ok [0] ∧
      ([1, 3] : List Nat) ≠ [1, 2] := by
  exact ⟨rfl, rfl, by decide⟩

/-- C8 (amended): for a grid encoded with a non-empty byte key at bit width
1, 2 or 4, decoding with no key fails with `MissingXOR`, and decoding with
any key `k2` raises no exception and returns
`xor(xor(payload, k), k2)` — which equals the original payload exactly when
the cycled keys agree on all payload positions (see the counterexample), so
a wrong key need not yield different bytes. -/
theorem c8_amended (grid G : List (List Nat)) (data k : List Nat) (bw : Nat)
    (hbw : bw = 1 ∨ bw = 2 ∨ bw = 4)
    (hdata : ∀ b ∈ data, b < 256) (hlen : data.length < 4294967296)
    (hk : k ≠ []) (hkb : ∀ b ∈ k, b < 256)
    (henc : encode grid data bw (some k) = .ok G) :
    decode G none = .error .missingXOR ∧
      ∀ k2, decode G (some k2) = .ok (xorCycle (xorCycle data k) k2) := by
  have hkey : ∀ k', some k = some k' → k' ≠ [] ∧ ∀ b ∈ k', b < 256 := by
    intro k' hk'
    injection hk' with h
    subst h
    exact ⟨hk, hkb⟩
  constructor
  · have := decode_encode_core grid data bw (some k) G hbw hdata hlen hkey henc none
    simpa [expectedDecode] using this
  · intro k2
    have := decode_encode_core grid data bw (some k) G hbw hdata hlen hkey henc (some k2)
    simpa [expectedDecode] using this

/-- Witness for C8: the key-[1,2] grid decoded without a key and with the
wrong key [7]. -/
theorem c8_amended_witness :
    decode gKey none = .error .missingXOR ∧
      decode gKey (some [7]) = .ok (xorCycle (xorCycle [0] [1, 2]) [7]) :=
  ⟨(c8_amended zg18 gKey [0] [1, 2] 1 (Or.inl rfl) (by decide) (by decide) (by decide)
      (by decide) rfl).1,
    (c8_amended zg18 gKey [0] [1, 2] 1 (Or.inl rfl) (by decide) (by decide) (by decide)
      (by decide) rfl).2 [7]⟩

/-! ### Claim C9 -/

/-- C9: bit width 8 passes `lsb_check` and `encode` can complete, but every
grid so encoded is undecodable: with no key the prologue is 0b001000, whose
obfuscation sub-field 8 is neither 0b111000 nor 0, and with a key it is
0b111000, whose bit-width sub-field is 0; both paths raise
`ValueError` in `decode`, for any key supplied to the decoder. -/
theorem c9_bw8_undecodable (grid G : List (List Nat)) (data : List Nat)
    (key : Option (List Nat)) (henc : encode grid data 8 key = .ok G) :
    ∀ key2, decode G key2 = .error .valueError := by
  obtain ⟨dint, d1, r1, d2, r2, d3, r3, hlsb, hcap, hdint, h1, h2, h3, hG⟩ :=
    encode_ok_inv grid data 8 key G henc
  intro key2
  rw [hG]
  unfold decode
  rcases key with _ | k <;>
    (have hr1 := decode_read1 _ grid d1 r1 (d2 ++ (d3 ++ r3)) h1
     norm_num [XOR_N, XOR_Y, mask8Facts] at hr1
     rw [hr1]
     simp [gen0mask_three, gen1mask_three, XOR_Y, XOR_N, mask8Facts, CHAN_SIZE, CHAN_CNT])

/-- Witness for C9: [65] encoded at bit width 8 on a 5 pixel zero grid;
decoding fails with `ValueError` with and without a key. -/
theorem c9_bw8_undecodable_witness :
    decode gBW8 none = .error .valueError ∧ decode gBW8 (some [1]) = .error .valueError :=
  ⟨c9_bw8_undecodable zg5 gBW8 [65] none rfl none,
    c9_bw8_undecodable zg5 gBW8 [65] none rfl (some [1])⟩

/-! ### Claim C10 -/

/-- C10: `encode_string` and `encode_file` pass their `xor_key` argument as
`encode`'s `lsb_cnt` positional parameter.  `assert lsb_check(lsb_cnt)`
(line 205) discards `lsb_check`'s return value, so `lsb_cnt` keeps its
original `None`/bytes value, and every possible key raises before anything
is written: `None` → `TypeError` in `int()`; a non-numeric key →
`ValueError` in `int()`; a numeric key outside `(0, 8]` → `InvalidLSB`; a
numeric key in range → `TypeError` at `CHAN_SIZE // lsb_cnt` (`8 // bytes`)
inside `available`.  The two methods never succeed, the grid is left exactly
in its pre-call state, and the key is never applied as an XOR key (the inner
call's `xor_key` is always `None`, so no XOR path is ever reached). -/
theorem c10_never_succeeds (grid : List (List Nat)) (s : List Nat)
    (key : Option (List Nat)) :
    (∃ e, encodeStringRun grid s key = (.error e, grid)) ∧
      ∃ e, encodeFileRun grid s key = (.error e, grid) := by
  constructor <;>
    (rcases key with _ | bs
     · exact ⟨.typeError, rfl⟩
     · rcases hp : parseIntBytes bs with _ | i
       · exact ⟨.valueError, by simp [encodeStringRun, encodeFileRun, hp]⟩
       · by_cases hr : i > 8 ∨ i ≤ 0
         · exact ⟨.invalidLSB, by simp [encodeStringRun, encodeFileRun, hp, hr]⟩
         · exact ⟨.typeError, by simp [encodeStringRun, encodeFileRun, hp, hr]⟩)

end Solus
